import Mathlib

/-!
A shallow embedding of the core of the `load-balancer` repository
(load-balancing algorithms, health state machine, TCP/HTTP proxy error
paths, header variable substitution), with theorems checking the
specification's claims against it.

Machine integers are modelled as `Nat` with explicit reduction modulo
`2^32` (`u32`) or `2^64` (`usize`/`u64`) exactly where the Rust code can
wrap.  `std::time::Duration` is modelled as a number of nanoseconds.
Fallible operations are modelled with `Option`/`Except`, and the
side-effecting reads of the system clock (`current_timestamp()`) are
modelled by passing the current value `now` explicitly.
-/

namespace LoadBalancer

/-- The modulus of `u32` arithmetic. -/
def U32 : Nat := 2 ^ 32

/-- The modulus of `u64` / `usize` arithmetic (64-bit target). -/
def U64 : Nat := 2 ^ 64

/-- Model of `std::net::SocketAddr`: an abstract IP address plus a port.
Only equality of addresses and the ip/port split matter to the core. -/
structure SocketAddr where
  ip : Nat
  port : Nat
deriving DecidableEq

/-- Model of `ServerInfo` (src/backend/algorithms/mod.rs): an upstream
address plus its `u32` weight. -/
structure ServerInfo where
  address : SocketAddr
  weight : Nat
deriving DecidableEq

/-! ## Weighted round-robin (src/backend/algorithms/weighted.rs) -/

/-- `servers.iter().map(|s| s.weight).sum()` before the `u32` reduction. -/
def sumWeights (servers : List ServerInfo) : Nat :=
  (servers.map ServerInfo.weight).sum

/-- The cumulative-weight scan of `Weighted::select` (the `for server in
servers` loop): `cumulative += server.weight` in wrapping `u32`
arithmetic, returning the first server with `position < cumulative`. -/
def findWeighted (position : Nat) : Nat → List ServerInfo → Option SocketAddr
  | _, [] => none
  | cumulative, server :: rest =>
    let c := (cumulative + server.weight) % U32
    if position < c then some server.address
    else findWeighted position c rest

/-- `Weighted::select`.  The atomic `counter` (a `usize`) is passed as
explicit state; the Rust code truncates it with `as u32` before the
modulo by the total weight. -/
def Weighted.select (counter : Nat) (servers : List ServerInfo) : Option SocketAddr :=
  if servers.isEmpty then none
  else
    let total_weight := sumWeights servers % U32
    if total_weight = 0 then none
    else
      let position := counter % U32 % total_weight
      match findWeighted position 0 servers with
      | some addr => some addr
      | none => servers.head?.map ServerInfo.address

/-- The counter state update of `Weighted::select`
(`fetch_add(1, Relaxed)` on a `usize`, which wraps at `2^64`). -/
def Weighted.next (counter : Nat) : Nat := (counter + 1) % U64

/-- `n` consecutive calls to `Weighted::select` on an unchanged server
list, returning the selected addresses in order. -/
def Weighted.selectRun (counter : Nat) (servers : List ServerInfo) : Nat → List (Option SocketAddr)
  | 0 => []
  | n + 1 =>
    Weighted.select counter servers ::
      Weighted.selectRun (Weighted.next counter) servers n

/-- Sum of the weights of the servers strictly before the first server
with address `a` (the cumulative weight at which `a`'s slot starts). -/
def cumBefore (a : SocketAddr) : List ServerInfo → Nat
  | [] => 0
  | server :: rest =>
    if server.address = a then 0 else server.weight + cumBefore a rest

/-- Weight of the first server with address `a` (0 if absent). -/
def weightOf (a : SocketAddr) : List ServerInfo → Nat
  | [] => 0
  | server :: rest =>
    if server.address = a then server.weight else weightOf a rest

/-! ## Least connections (src/backend/algorithms/least_conn.rs) -/

/-- Model of `LeastConnections`: the `DashMap<SocketAddr, AtomicU32>` of
per-address connection counters, as a partial map. -/
structure LeastConnections where
  connections : SocketAddr → Option Nat

/-- `LeastConnections::new()`. -/
def LeastConnections.new : LeastConnections := ⟨fun _ => none⟩

/-- `LeastConnections::get_connections`: `unwrap_or(0)` for absent
entries. -/
def LeastConnections.get_connections (lc : LeastConnections) (server : SocketAddr) : Nat :=
  (lc.connections server).getD 0

/-- `LeastConnections::on_connect`:
`entry(server).or_insert_with(0).fetch_add(1)`, wrapping at `2^32`. -/
def LeastConnections.on_connect (lc : LeastConnections) (server : SocketAddr) : LeastConnections :=
  ⟨fun x => if x = server then some ((lc.get_connections server + 1) % U32)
            else lc.connections x⟩

/-- `LeastConnections::on_disconnect`: decrement guarded against
underflow; a no-op for absent entries. -/
def LeastConnections.on_disconnect (lc : LeastConnections) (server : SocketAddr) : LeastConnections :=
  match lc.connections server with
  | none => lc
  | some current =>
    if 0 < current then
      ⟨fun x => if x = server then some (current - 1) else lc.connections x⟩
    else lc

/-- The scan of `LeastConnections::select`: track the best (strictly
smaller) count seen so far and the corresponding address.  `min_conns`
starts at `u32::MAX` and `selected` at `None`. -/
def LeastConnections.selectLoop (lc : LeastConnections) :
    List ServerInfo → Nat → Option SocketAddr → Option SocketAddr
  | [], _, selected => selected
  | server :: rest, min_conns, selected =>
    let conns := lc.get_connections server.address
    if conns < min_conns then lc.selectLoop rest conns (some server.address)
    else lc.selectLoop rest min_conns selected

/-- `LeastConnections::select`. -/
def LeastConnections.select (lc : LeastConnections) (servers : List ServerInfo) : Option SocketAddr :=
  if servers.isEmpty then none
  else lc.selectLoop servers (U32 - 1) none

/-- A connection lifecycle event fed to a `LeastConnections` balancer. -/
inductive ConnEvent where
  | connect (server : SocketAddr)
  | disconnect (server : SocketAddr)
deriving DecidableEq

/-- Apply a finite sequence of `on_connect`/`on_disconnect` events, in
order. -/
def applyEvents : List ConnEvent → LeastConnections → LeastConnections
  | [], lc => lc
  | ConnEvent.connect s :: rest, lc => applyEvents rest (lc.on_connect s)
  | ConnEvent.disconnect s :: rest, lc => applyEvents rest (lc.on_disconnect s)

/-- The running minimum computed by the `select` scan: the fold of `min`
over the tracked counts, started at `u32::MAX` (the initial
`min_conns`). -/
def LeastConnections.minCount (lc : LeastConnections) (servers : List ServerInfo) : Nat :=
  (servers.map fun s => lc.get_connections s.address).foldr min (U32 - 1)

/-! ## IP hash (src/backend/algorithms/ip_hash.rs) -/

/-- `IpHash::hash_client`: only the IP is hashed, never the port.  The
concrete `DefaultHasher` is abstracted as a pure function `hash` of the
IP (it is deterministic and seeded identically on every call). -/
def IpHash.hash_client (hash : Nat → Nat) (client_addr : SocketAddr) : Nat :=
  hash client_addr.ip

/-- `IpHash::select`. -/
def IpHash.select (hash : Nat → Nat) (servers : List ServerInfo)
    (client_addr : Option SocketAddr) : Option SocketAddr :=
  if servers.isEmpty then none
  else
    let idx :=
      match client_addr with
      | some addr => IpHash.hash_client hash addr % servers.length
      | none => 0
    servers[idx]?.map ServerInfo.address

/-! ## Health state (src/health/state.rs) -/

/-- Model of `ServerHealth`.  All counters are `u32` and the timestamps
are `u64` seconds since the epoch; 0 in `unhealthy_since` means
"healthy". -/
structure ServerHealth where
  healthy : Bool
  consecutive_failures : Nat
  consecutive_successes : Nat
  active_connections : Nat
  unhealthy_since : Nat
  last_check : Nat
deriving DecidableEq

/-- `ServerHealth::default()`: healthy, all counters and timestamps 0. -/
def ServerHealth.default : ServerHealth :=
  { healthy := true
    consecutive_failures := 0
    consecutive_successes := 0
    active_connections := 0
    unhealthy_since := 0
    last_check := 0 }

/-- `Duration::from_secs`, with `Duration` modelled in nanoseconds. -/
def durationFromSecs (secs : Nat) : Nat := secs * 1000000000

/-- Model of `HealthConfig`; `cooldown` is a `Duration` in
nanoseconds. -/
structure HealthConfig where
  unhealthy_threshold : Nat
  healthy_threshold : Nat
  cooldown : Nat

/-- Model of `HealthState`: the `DashMap<SocketAddr, ServerHealth>` as a
partial map, plus the config. -/
structure HealthState where
  servers : SocketAddr → Option ServerHealth
  config : HealthConfig

/-- `HealthState::with_config`: an empty map. -/
def HealthState.with_config (config : HealthConfig) : HealthState :=
  ⟨fun _ => none, config⟩

/-- Store entry `h` for `server` (the effect of writing through a
`DashMap` entry). -/
def HealthState.update (st : HealthState) (server : SocketAddr) (h : ServerHealth) : HealthState :=
  { st with servers := fun x => if x = server then some h else st.servers x }

/-- `HealthState::register_server`: `entry(server).or_default()`. -/
def HealthState.register_server (st : HealthState) (server : SocketAddr) : HealthState :=
  match st.servers server with
  | some _ => st
  | none => st.update server ServerHealth.default

/-- `HealthState::is_healthy`: unknown servers are assumed healthy. -/
def HealthState.is_healthy (st : HealthState) (server : SocketAddr) : Bool :=
  match st.servers server with
  | some health => health.healthy
  | none => true

/-- `HealthState::is_in_cooldown`.  `now.saturating_sub(unhealthy_since)`
is `Nat` subtraction, and the elapsed seconds are lifted to a `Duration`
before comparing with the cooldown. -/
def HealthState.is_in_cooldown (st : HealthState) (server : SocketAddr) (now : Nat) : Bool :=
  match st.servers server with
  | some health =>
    if health.unhealthy_since = 0 then false
    else decide (durationFromSecs (now - health.unhealthy_since) < st.config.cooldown)
  | none => false

/-- `HealthState::record_success`.  `now` is the value read from
`current_timestamp()` during the call. -/
def HealthState.record_success (st : HealthState) (server : SocketAddr) (now : Nat) : HealthState :=
  let entry := (st.servers server).getD ServerHealth.default
  let successes := (entry.consecutive_successes + 1) % U32
  let entry := { entry with
                   consecutive_failures := 0
                   consecutive_successes := successes
                   last_check := now }
  if entry.healthy = false ∧ st.config.healthy_threshold ≤ successes then
    st.update server { entry with
                         healthy := true
                         unhealthy_since := 0
                         consecutive_successes := 0 }
  else
    st.update server entry

/-- `HealthState::record_failure`. -/
def HealthState.record_failure (st : HealthState) (server : SocketAddr) (now : Nat) : HealthState :=
  let entry := (st.servers server).getD ServerHealth.default
  let failures := (entry.consecutive_failures + 1) % U32
  let entry := { entry with
                   consecutive_successes := 0
                   consecutive_failures := failures
                   last_check := now }
  if entry.healthy = true ∧ st.config.unhealthy_threshold ≤ failures then
    st.update server { entry with
                         healthy := false
                         unhealthy_since := now
                         consecutive_failures := 0 }
  else
    st.update server entry

/-- `HealthState::mark_unhealthy`: only acts on an existing, currently
healthy entry; never creates an entry. -/
def HealthState.mark_unhealthy (st : HealthState) (server : SocketAddr) (now : Nat) : HealthState :=
  match st.servers server with
  | some health =>
    if health.healthy = true then
      st.update server { health with
                           healthy := false
                           unhealthy_since := now
                           consecutive_failures := 0
                           consecutive_successes := 0 }
    else st
  | none => st

/-- `HealthState::reset_server`. -/
def HealthState.reset_server (st : HealthState) (server : SocketAddr) : HealthState :=
  match st.servers server with
  | some health =>
    st.update server { health with
                         healthy := true
                         unhealthy_since := 0
                         consecutive_failures := 0
                         consecutive_successes := 0 }
  | none => st

/-- `n` consecutive `record_failure` calls for `server`, the `i`-th call
observing timestamp `times i`. -/
def HealthState.iterate_record_failure (st : HealthState) (server : SocketAddr)
    (times : Nat → Nat) : Nat → HealthState
  | 0 => st
  | n + 1 =>
    (st.iterate_record_failure server times n).record_failure server (times n)

/-- The per-entry invariant of the spec: a healthy entry has no
`unhealthy_since` timestamp, and the two streak counters are mutually
exclusive. -/
def ServerHealth.Inv (h : ServerHealth) : Prop :=
  (h.healthy = true → h.unhealthy_since = 0) ∧
  (h.consecutive_failures = 0 ∨ h.consecutive_successes = 0)

/-- The state-wide invariant: every stored entry satisfies
`ServerHealth.Inv`. -/
def HealthState.Inv (st : HealthState) : Prop :=
  ∀ s h, st.servers s = some h → h.Inv

/-! ## TCP proxy (src/proxy/tcp_proxy.rs) -/

/-- An abstract `std::io::Error`. -/
structure IoError where
  code : Nat
deriving DecidableEq

/-- Model of `ProxyResult`. -/
structure ProxyResult where
  bytes_to_backend : Nat
  bytes_to_client : Nat
deriving DecidableEq

/-- Model of `TcpProxyError`. -/
inductive TcpProxyError where
  | BackendConnectError (addr : SocketAddr) (e : IoError)
  | BackendTimeout (addr : SocketAddr)
  | ProxyError (e : IoError)
deriving DecidableEq

/-- The outcome of `timeout(connect_timeout, TcpStream::connect(addr))`:
established, failed with an I/O error, or timed out. -/
inductive ConnectOutcome where
  | ok
  | connectErr (e : IoError)
  | timeout
deriving DecidableEq

/-- `connect_to_backend`, over the outcome of the timed dial. -/
def connect_to_backend (addr : SocketAddr) (outcome : ConnectOutcome) :
    Except TcpProxyError Unit :=
  match outcome with
  | ConnectOutcome.ok => Except.ok ()
  | ConnectOutcome.connectErr e => Except.error (TcpProxyError.BackendConnectError addr e)
  | ConnectOutcome.timeout => Except.error (TcpProxyError.BackendTimeout addr)

/-- `proxy_bidirectional`, over the results of the two directional
`tokio::io::copy` calls (`Ok(byte count)` or an I/O error).  The Rust
code joins both copies and then takes `unwrap_or(0)` of each result,
always returning `Ok`. -/
def proxy_bidirectional (c2b_result b2c_result : Except IoError Nat) :
    Except TcpProxyError ProxyResult :=
  Except.ok
    { bytes_to_backend := c2b_result.toOption.getD 0
      bytes_to_client := b2c_result.toOption.getD 0 }

/-- `handle_tcp_proxy`: dial (propagating dial errors with `?`), then
proxy bidirectionally. -/
def handle_tcp_proxy (backend_addr : SocketAddr) (connect : ConnectOutcome)
    (c2b_result b2c_result : Except IoError Nat) : Except TcpProxyError ProxyResult :=
  match connect_to_backend backend_addr connect with
  | Except.error e => Except.error e
  | Except.ok _ => proxy_bidirectional c2b_result b2c_result

/-! ## HTTP proxy error paths (src/proxy/http_proxy.rs) -/

/-- An HTTP status code together with its `Display` rendering
(`"<code> <canonical reason>"`), as used by `format!` in
`error_response`. -/
structure StatusCode where
  code : Nat
  display : List Char
deriving DecidableEq

/-- `StatusCode::BAD_GATEWAY`. -/
def StatusCode.BAD_GATEWAY : StatusCode :=
  ⟨502, ("502 Bad Gateway".data)⟩

/-- The observable part of a `Response` for these claims. -/
structure HttpResponse where
  status : Nat
  content_type : List Char
  body : List Char
deriving DecidableEq

/-- `error_response`: a plain-text response whose body is
`format!("{}: {}\n", status, message)`. -/
def error_response (status : StatusCode) (message : List Char) : HttpResponse :=
  { status := status.code
    content_type := ("text/plain".data)
    body := status.display ++ (": ".data) ++ message ++ ("\n".data) }

/-- `proxy_request`, over the outcomes of its three fallible backend
steps: the dial (`TcpStream::connect`, which the code awaits with **no**
timeout), the HTTP/1.1 handshake, and the request send (whose success
carries the backend response).  Returns the response sent to the client
together with the list of statuses recorded by
`metrics.record_request`, in order. -/
def proxy_request (connect : Except IoError Unit) (handshake : Except Unit Unit)
    (send : Except Unit HttpResponse) : HttpResponse × List Nat :=
  match connect with
  | Except.error _ =>
    (error_response StatusCode.BAD_GATEWAY ("Failed to connect to backend".data), [502])
  | Except.ok _ =>
    match handshake with
    | Except.error _ =>
      (error_response StatusCode.BAD_GATEWAY ("Backend handshake failed".data), [502])
    | Except.ok _ =>
      match send with
      | Except.error _ =>
        (error_response StatusCode.BAD_GATEWAY ("Failed to send request to backend".data), [502])
      | Except.ok resp => (resp, [resp.status])

/-! ## Header variable substitution (src/proxy/http_proxy.rs) -/

/-- One pass of `str::replace`: replace every non-overlapping occurrence
of `pat` left to right.  `fuel` is an upper bound on the number of steps
(the length of the scanned text suffices); it only serves to make the
recursion structural, and is never exhausted when `replaceAll` calls
this. -/
def replaceAllAux (pat rep : List Char) : Nat → List Char → List Char
  | 0, s => s
  | fuel + 1, s =>
    match s with
    | [] => []
    | c :: rest =>
      if pat.isPrefixOf (c :: rest) ∧ pat ≠ [] then
        rep ++ replaceAllAux pat rep fuel (List.drop pat.length (c :: rest))
      else
        c :: replaceAllAux pat rep fuel rest

/-- `str::replace(pat, rep)` for a non-empty pattern. -/
def replaceAll (pat rep s : List Char) : List Char :=
  replaceAllAux pat rep s.length s

/-- Does `pat` occur as a contiguous sublist of `s`? -/
def occursIn (pat : List Char) : List Char → Bool
  | [] => pat.isPrefixOf []
  | c :: rest => pat.isPrefixOf (c :: rest) || occursIn pat rest

/-- The parts of `ProxyContext` read by `substitute_variables`: the
already-rendered textual values of the four variables. -/
structure SubstCtx where
  client_ip : List Char
  client_port : List Char
  backend_name : List Char
  backend_addr : List Char
deriving DecidableEq

/-- `substitute_variables`: four sequential `str::replace` passes, in
the fixed order `$client_ip`, `$client_port`, `$backend_name`,
`$backend_addr`. -/
def substitute_variables (value : List Char) (ctx : SubstCtx) : List Char :=
  replaceAll ("$backend_addr".data) ctx.backend_addr
    (replaceAll ("$backend_name".data) ctx.backend_name
      (replaceAll ("$client_port".data) ctx.client_port
        (replaceAll ("$client_ip".data) ctx.client_ip value)))

/-! ## Concrete inputs used by witnesses and counterexamples -/

/-- Weighted pool `[(:9001, w=3), (:9002, w=1)]` from the spec's E2
scenario. -/
def wservers : List ServerInfo := [⟨⟨1, 9001⟩, 3⟩, ⟨⟨1, 9002⟩, 1⟩]

/-- Three distinct unit-weight servers. -/
def cservers : List ServerInfo := [⟨⟨1, 1⟩, 1⟩, ⟨⟨1, 2⟩, 1⟩, ⟨⟨1, 3⟩, 1⟩]

/-- A single server for the least-connections counterexample. -/
def lcServer : ServerInfo := ⟨⟨1, 9001⟩, 1⟩

/-- `u32::MAX` connect events for `lcServer`. -/
def lcOverflowEvents : List ConnEvent :=
  List.replicate (U32 - 1) (ConnEvent.connect lcServer.address)

/-- A context whose backend pool name contains the `$backend_addr`
token. -/
def ctx7 : SubstCtx :=
  ⟨("192.168.1.100".data), ("12345".data), ("$backend_addr".data), ("10.0.0.1:8080".data)⟩

/-- A pass of `str::replace` leaves a text without any occurrence of the
pattern unchanged, for every fuel value. -/
theorem replaceAllAux_of_not_occurs (pat rep : List Char) :
    ∀ fuel s, occursIn pat s = false → replaceAllAux pat rep fuel s = s := by
  intro fuel
  induction fuel with
  | zero => intro s _; rfl
  | succ n ih =>
    intro s hs
    cases s with
    | nil => rfl
    | cons c rest =>
      unfold occursIn at hs
      rw [Bool.or_eq_false_iff] at hs
      unfold replaceAllAux
      dsimp only
      rw [if_neg ?_]
      · rw [ih rest hs.2]
      · intro hc
        rw [hs.1] at hc
        exact Bool.false_ne_true hc.1

/-- `str::replace` leaves a text without any occurrence of the pattern
unchanged. -/
theorem replaceAll_of_not_occurs (pat rep s : List Char)
    (h : occursIn pat s = false) : replaceAll pat rep s = s :=
  replaceAllAux_of_not_occurs pat rep s.length s h

/-- Claim C7 (amended): a header value in which none of the four known
tokens occurs — in particular any unknown `$…` token that does not
contain a known token as a substring — is returned unchanged by
`substitute_variables`. -/
theorem substitution_unknown_tokens_untouched (value : List Char) (ctx : SubstCtx)
    (h1 : occursIn ("$client_ip".data) value = false)
    (h2 : occursIn ("$client_port".data) value = false)
    (h3 : occursIn ("$backend_name".data) value = false)
    (h4 : occursIn ("$backend_addr".data) value = false) :
    substitute_variables value ctx = value := by
  unfold substitute_variables
  rw [replaceAll_of_not_occurs _ _ _ h1, replaceAll_of_not_occurs _ _ _ h2,
      replaceAll_of_not_occurs _ _ _ h3, replaceAll_of_not_occurs _ _ _ h4]

/-- Witness for `substitution_unknown_tokens_untouched`: the unknown
token `$unknown_var` is left untouched. -/
theorem substitution_unknown_tokens_untouched_witness :
    substitute_variables ("prefix $unknown_var suffix".data) ctx7
      = ("prefix $unknown_var suffix".data) :=
  substitution_unknown_tokens_untouched ("prefix $unknown_var suffix".data) ctx7
    (by decide) (by decide) (by decide) (by decide)

/-- Claim C7 counterexample: with a backend pool name that contains the
token `$backend_addr`, substituting into the value `$backend_name`
first inserts the text `$backend_addr` and the fourth replace pass then
substitutes that inserted text as well, producing the backend address
string — so substitution is not non-recursive across the four
sequential passes. -/
theorem substitution_sequential_counterexample :
    ctx7.backend_name = ("$backend_addr".data) ∧
    substitute_variables ("$backend_name".data) ctx7 = ("10.0.0.1:8080".data) ∧
    ("10.0.0.1:8080".data) ≠ ("$backend_addr".data) :=
  ⟨rfl, by decide, by decide⟩

end LoadBalancer

namespace LoadBalancer

/-! ## Theorems -/

/-- Claim C5: `is_in_cooldown(s)` is true iff `s` has an entry with
`unhealthy_since ≠ 0` and the elapsed time `now − unhealthy_since`
(saturating) is under the cooldown `D`; consequently it is false
whenever the entry is healthy (`unhealthy_since = 0`), whenever the
elapsed time is at least `D`, and whenever `s` was never registered or
signaled (no entry). -/
theorem is_in_cooldown_iff (st : HealthState) (s : SocketAddr) (now : Nat) :
    st.is_in_cooldown s now = true ↔
      ∃ h, st.servers s = some h ∧ h.unhealthy_since ≠ 0 ∧
        durationFromSecs (now - h.unhealthy_since) < st.config.cooldown := by
  unfold HealthState.is_in_cooldown
  cases hs : st.servers s with
  | none => simp [hs]
  | some h =>
    by_cases h0 : h.unhealthy_since = 0
    · simp [hs, h0]
    · simp [hs, h0]

/-- Claim C10: `mark_unhealthy` on a server with no entry is a no-op:
the whole state is unchanged, no entry is created, and `is_healthy`
still returns `true` (only `register_server`, `record_success` and
`record_failure` create entries). -/
theorem mark_unhealthy_unregistered_noop (st : HealthState) (s : SocketAddr) (now : Nat)
    (hs : st.servers s = none) :
    st.mark_unhealthy s now = st ∧ (st.mark_unhealthy s now).servers s = none ∧
      (st.mark_unhealthy s now).is_healthy s = true := by
  unfold HealthState.mark_unhealthy
  rw [hs]
  exact ⟨rfl, hs, by unfold HealthState.is_healthy; rw [hs]⟩

/-- Witness for `mark_unhealthy_unregistered_noop` at a concrete state:
the empty health state with the default config. -/
theorem mark_unhealthy_unregistered_noop_witness :
    (HealthState.with_config ⟨3, 2, 30000000000⟩).mark_unhealthy ⟨1, 9001⟩ 5
        = HealthState.with_config ⟨3, 2, 30000000000⟩ ∧
      ((HealthState.with_config ⟨3, 2, 30000000000⟩).mark_unhealthy ⟨1, 9001⟩ 5).servers
          ⟨1, 9001⟩ = none ∧
      ((HealthState.with_config ⟨3, 2, 30000000000⟩).mark_unhealthy ⟨1, 9001⟩ 5).is_healthy
          ⟨1, 9001⟩ = true :=
  mark_unhealthy_unregistered_noop (HealthState.with_config ⟨3, 2, 30000000000⟩) ⟨1, 9001⟩ 5 rfl

/-- Claim C9: `IpHash.select` depends on the client address only through
its IP: two client addresses with the same IP (any ports) select the
same server on the same pool.  Since `select` is a pure function of
`(hash, servers, client)`, repeated calls with the same client on an
unchanged pool trivially return the same address. -/
theorem ip_hash_affinity (hash : Nat → Nat) (servers : List ServerInfo) (a b : SocketAddr)
    (hne : servers ≠ []) (hip : a.ip = b.ip) :
    IpHash.select hash servers (some a) = IpHash.select hash servers (some b) := by
  have ha : IpHash.select hash servers (some a) =
      if servers.isEmpty = true then none
      else servers[hash a.ip % servers.length]?.map ServerInfo.address := rfl
  have hb : IpHash.select hash servers (some b) =
      if servers.isEmpty = true then none
      else servers[hash b.ip % servers.length]?.map ServerInfo.address := rfl
  rw [ha, hb, hip]

/-- Witness for `ip_hash_affinity`: a three-server pool and two client
addresses sharing IP `100` on ports `12345` and `54321`. -/
theorem ip_hash_affinity_witness :
    IpHash.select (fun ip => ip * 7) cservers (some ⟨100, 12345⟩)
      = IpHash.select (fun ip => ip * 7) cservers (some ⟨100, 54321⟩) :=
  ip_hash_affinity (fun ip => ip * 7) cservers ⟨100, 12345⟩ ⟨100, 54321⟩ (by decide) rfl

/-- Claim C3 counterexample: with a successful dial, a failing
client→backend copy and a backend→client copy of 5 bytes, the session
returns `Ok { bytes_to_backend := 0, bytes_to_client := 5 }` — not an
error result, contrary to the claim that either copy erroring yields an
error result for the session. -/
theorem tcp_copy_error_swallowed_counterexample :
    handle_tcp_proxy ⟨1, 9001⟩ ConnectOutcome.ok (Except.error ⟨1⟩) (Except.ok 5)
      = Except.ok ⟨0, 5⟩ := rfl

/-- Claim C3 (amended): after a successful dial the TCP session always
returns `Ok` — copy errors are swallowed by `unwrap_or(0)` — and the
byte count reported for a failing direction is 0. -/
theorem tcp_session_ok_with_zero_bytes (addr : SocketAddr) (c2b b2c : Except IoError Nat) :
    ∃ r, handle_tcp_proxy addr ConnectOutcome.ok c2b b2c = Except.ok r ∧
      (∀ e, c2b = Except.error e → r.bytes_to_backend = 0) ∧
      (∀ e, b2c = Except.error e → r.bytes_to_client = 0) := by
  refine ⟨_, rfl, ?_, ?_⟩
  · intro e he; subst he; rfl
  · intro e he; subst he; rfl

/-- Witness for `tcp_session_ok_with_zero_bytes` at a concrete failing
client→backend copy. -/
theorem tcp_session_ok_with_zero_bytes_witness :
    ∃ r, handle_tcp_proxy ⟨1, 9002⟩ ConnectOutcome.ok (Except.error ⟨7⟩) (Except.ok 9)
        = Except.ok r ∧
      (∀ e, (Except.error ⟨7⟩ : Except IoError Nat) = Except.error e → r.bytes_to_backend = 0) ∧
      (∀ e, (Except.ok 9 : Except IoError Nat) = Except.error e → r.bytes_to_client = 0) :=
  tcp_session_ok_with_zero_bytes ⟨1, 9002⟩ (Except.error ⟨7⟩) (Except.ok 9)

/-- Claim C2: when the dial to the backend fails, `proxy_request`
returns a `502 Bad Gateway` response whose body is
`"502 Bad Gateway: Failed to connect to backend\n"` and records exactly
one request metric, with status 502.  (The dial itself is *not* bounded
by `config.connect_timeout` in the code — see the results entry; this
theorem checks the failure path that the code does implement.) -/
theorem http_dial_failure_502 (e : IoError) (handshake : Except Unit Unit)
    (send : Except Unit HttpResponse) :
    proxy_request (Except.error e) handshake send
        = (error_response StatusCode.BAD_GATEWAY ("Failed to connect to backend".data), [502]) ∧
      (error_response StatusCode.BAD_GATEWAY ("Failed to connect to backend".data)).status = 502 ∧
      (error_response StatusCode.BAD_GATEWAY ("Failed to connect to backend".data)).body
        = ("502 Bad Gateway: Failed to connect to backend\n".data) := by
  exact ⟨rfl, rfl, by decide⟩



/-- A fresh `ServerHealth` entry satisfies the spec invariant. -/
theorem ServerHealth.default_Inv : ServerHealth.default.Inv := by
  constructor
  · intro; rfl
  · exact Or.inl rfl

/-- Storing an entry that satisfies the invariant preserves the
state-wide invariant. -/
theorem HealthState.update_Inv {st : HealthState} {s : SocketAddr} {h : ServerHealth}
    (hst : st.Inv) (hh : h.Inv) : (st.update s h).Inv := by
  intro x h' hl
  unfold HealthState.update at hl
  by_cases hxs : x = s
  · simp only [hxs, if_pos rfl] at hl
    cases hl
    exact hh
  · simp only [if_neg hxs] at hl
    exact hst x h' hl

/-- The entry read (or created) by `entry(server).or_default()`
satisfies the invariant. -/
theorem HealthState.entry_Inv {st : HealthState} (s : SocketAddr) (hst : st.Inv) :
    ((st.servers s).getD ServerHealth.default).Inv := by
  cases hs : st.servers s with
  | none => exact ServerHealth.default_Inv
  | some h => exact hst s h hs

/-- `register_server` preserves the invariant. -/
theorem register_server_Inv {st : HealthState} (s : SocketAddr) (hst : st.Inv) :
    (st.register_server s).Inv := by
  unfold HealthState.register_server
  cases hs : st.servers s with
  | some h => exact hst
  | none => exact HealthState.update_Inv hst ServerHealth.default_Inv

/-- `record_success` preserves the invariant. -/
theorem record_success_Inv {st : HealthState} (s : SocketAddr) (now : Nat) (hst : st.Inv) :
    (st.record_success s now).Inv := by
  unfold HealthState.record_success
  have he := HealthState.entry_Inv s hst
  dsimp only
  split
  · exact HealthState.update_Inv hst ⟨fun _ => rfl, Or.inl rfl⟩
  · refine HealthState.update_Inv hst ⟨fun hh => ?_, Or.inl rfl⟩
    exact he.1 hh

/-- `record_failure` preserves the invariant. -/
theorem record_failure_Inv {st : HealthState} (s : SocketAddr) (now : Nat) (hst : st.Inv) :
    (st.record_failure s now).Inv := by
  unfold HealthState.record_failure
  have he := HealthState.entry_Inv s hst
  dsimp only
  split
  · exact HealthState.update_Inv hst ⟨fun hh => by simp at hh, Or.inr rfl⟩
  · refine HealthState.update_Inv hst ⟨fun hh => ?_, Or.inr rfl⟩
    exact he.1 hh

/-- `mark_unhealthy` preserves the invariant. -/
theorem mark_unhealthy_Inv {st : HealthState} (s : SocketAddr) (now : Nat) (hst : st.Inv) :
    (st.mark_unhealthy s now).Inv := by
  unfold HealthState.mark_unhealthy
  split
  · split
    · exact HealthState.update_Inv hst ⟨fun hh => by simp at hh, Or.inl rfl⟩
    · exact hst
  · exact hst

/-- `reset_server` preserves the invariant. -/
theorem reset_server_Inv {st : HealthState} (s : SocketAddr) (hst : st.Inv) :
    (st.reset_server s).Inv := by
  unfold HealthState.reset_server
  split
  · exact HealthState.update_Inv hst ⟨fun _ => rfl, Or.inl rfl⟩
  · exact hst

/-- Claim C6: the per-entry predicate
`(healthy = true → unhealthy_since = 0) ∧ (consecutive_failures = 0 ∨
consecutive_successes = 0)` holds for a fresh entry and is preserved,
at operation boundaries, by every `HealthState` operation. -/
theorem health_invariant_preserved :
    ServerHealth.default.Inv ∧
    ∀ (st : HealthState) (s : SocketAddr) (now : Nat), st.Inv →
      (st.register_server s).Inv ∧ (st.record_success s now).Inv ∧
      (st.record_failure s now).Inv ∧ (st.mark_unhealthy s now).Inv ∧
      (st.reset_server s).Inv :=
  ⟨ServerHealth.default_Inv, fun _ s now hst =>
    ⟨register_server_Inv s hst, record_success_Inv s now hst, record_failure_Inv s now hst,
     mark_unhealthy_Inv s now hst, reset_server_Inv s hst⟩⟩

/-- Witness for `health_invariant_preserved` at the empty state with
the default config (which satisfies the invariant vacuously). -/
theorem health_invariant_preserved_witness :
    ((HealthState.with_config ⟨3, 2, 30000000000⟩).register_server ⟨1, 9001⟩).Inv ∧
    ((HealthState.with_config ⟨3, 2, 30000000000⟩).record_success ⟨1, 9001⟩ 5).Inv ∧
    ((HealthState.with_config ⟨3, 2, 30000000000⟩).record_failure ⟨1, 9001⟩ 5).Inv ∧
    ((HealthState.with_config ⟨3, 2, 30000000000⟩).mark_unhealthy ⟨1, 9001⟩ 5).Inv ∧
    ((HealthState.with_config ⟨3, 2, 30000000000⟩).reset_server ⟨1, 9001⟩).Inv :=
  health_invariant_preserved.2 (HealthState.with_config ⟨3, 2, 30000000000⟩) ⟨1, 9001⟩ 5
    (fun _ _ hl => Option.noConfusion hl)

/-- `record_failure` never changes the configuration. -/
theorem record_failure_config (st : HealthState) (s : SocketAddr) (now : Nat) :
    (st.record_failure s now).config = st.config := by
  unfold HealthState.record_failure
  dsimp only
  split <;> rfl

/-- Iterated `record_failure` never changes the configuration. -/
theorem iterate_record_failure_config (st : HealthState) (s : SocketAddr) (times : Nat → Nat) :
    ∀ n, (st.iterate_record_failure s times n).config = st.config
  | 0 => rfl
  | n + 1 => by
    unfold HealthState.iterate_record_failure
    rw [record_failure_config, iterate_record_failure_config st s times n]

/-- Below the unhealthy threshold, iterated `record_failure` keeps the
entry healthy and counts the failure streak exactly. -/
theorem iterate_failure_below (st : HealthState) (s : SocketAddr) (h0 : ServerHealth)
    (times : Nat → Nat) (hs : st.servers s = some h0) (hh : h0.healthy = true)
    (hcf : h0.consecutive_failures = 0) (hU32 : st.config.unhealthy_threshold < U32) :
    ∀ j, j < st.config.unhealthy_threshold →
      ∃ h', (st.iterate_record_failure s times j).servers s = some h' ∧
        h'.healthy = true ∧ h'.consecutive_failures = j := by
  intro j
  induction j with
  | zero => intro _; exact ⟨h0, hs, hh, hcf⟩
  | succ n ih =>
    intro hlt
    obtain ⟨h', hl, hhealthy, hcf'⟩ := ih (Nat.lt_of_succ_lt hlt)
    have hcfg := iterate_record_failure_config st s times n
    show ∃ h'', ((st.iterate_record_failure s times n).record_failure s (times n)).servers s
        = some h'' ∧ h''.healthy = true ∧ h''.consecutive_failures = n + 1
    unfold HealthState.record_failure
    dsimp only
    rw [hl]
    simp only [Option.getD_some, hcf', hhealthy, hcfg]
    rw [Nat.mod_eq_of_lt (by omega : n + 1 < U32)]
    rw [if_neg (by intro hc; omega)]
    refine ⟨⟨true, n + 1, 0, h'.active_connections, h'.unhealthy_since, times n⟩, ?_, rfl, rfl⟩
    simp [HealthState.update]

/-- Claim C4 (amended): for a registered, currently healthy server with
`consecutive_failures = 0`, and provided `1 ≤ unhealthy_threshold`
(`U` is a `u32`, hence the `U < 2^32` side condition), exactly `U`
consecutive `record_failure` calls with no intervening success make
`is_healthy` false, while any smaller number of calls leaves it true. -/
theorem record_failure_threshold (st : HealthState) (s : SocketAddr) (h0 : ServerHealth)
    (times : Nat → Nat) (hs : st.servers s = some h0) (hh : h0.healthy = true)
    (hcf : h0.consecutive_failures = 0) (hU : 0 < st.config.unhealthy_threshold)
    (hU32 : st.config.unhealthy_threshold < U32) :
    (st.iterate_record_failure s times st.config.unhealthy_threshold).is_healthy s = false ∧
    ∀ j, j < st.config.unhealthy_threshold →
      (st.iterate_record_failure s times j).is_healthy s = true := by
  constructor
  · obtain ⟨m, hm⟩ : ∃ m, st.config.unhealthy_threshold = m + 1 :=
      ⟨st.config.unhealthy_threshold - 1, by omega⟩
    obtain ⟨h', hl, hhealthy, hcf'⟩ :=
      iterate_failure_below st s h0 times hs hh hcf hU32 m (by omega)
    rw [hm]
    show ((st.iterate_record_failure s times m).record_failure s (times m)).is_healthy s = false
    have hcfg := iterate_record_failure_config st s times m
    unfold HealthState.record_failure
    dsimp only
    rw [hl]
    simp only [Option.getD_some, hcf', hhealthy, hcfg]
    rw [Nat.mod_eq_of_lt (by omega : m + 1 < U32)]
    rw [if_pos ⟨trivial, by omega⟩]
    simp [HealthState.update, HealthState.is_healthy]
  · intro j hj
    obtain ⟨h', hl, hhealthy, _⟩ :=
      iterate_failure_below st s h0 times hs hh hcf hU32 j hj
    unfold HealthState.is_healthy
    rw [hl]
    exact hhealthy

/-- Witness for `record_failure_threshold` with threshold `U = 2` on a
freshly registered server: two failures flip it, one does not. -/
theorem record_failure_threshold_witness :
    (((HealthState.with_config ⟨2, 2, 1000000000⟩).register_server ⟨1, 9001⟩).iterate_record_failure
        ⟨1, 9001⟩ (fun _ => 100)
        ((HealthState.with_config ⟨2, 2, 1000000000⟩).register_server
            ⟨1, 9001⟩).config.unhealthy_threshold).is_healthy ⟨1, 9001⟩ = false ∧
    ∀ j, j < ((HealthState.with_config ⟨2, 2, 1000000000⟩).register_server
        ⟨1, 9001⟩).config.unhealthy_threshold →
      (((HealthState.with_config ⟨2, 2, 1000000000⟩).register_server ⟨1, 9001⟩).iterate_record_failure
          ⟨1, 9001⟩ (fun _ => 100) j).is_healthy ⟨1, 9001⟩ = true :=
  record_failure_threshold ((HealthState.with_config ⟨2, 2, 1000000000⟩).register_server ⟨1, 9001⟩)
    ⟨1, 9001⟩ ServerHealth.default (fun _ => 100) rfl rfl rfl (by decide) (by decide)

/-- Claim C4 counterexample: with `unhealthy_threshold = 0` (a value the
config loader never rejects), a freshly registered server is healthy
with `consecutive_failures = 0`, yet after exactly
`U = unhealthy_threshold = 0` `record_failure` calls `is_healthy` is
still `true`, where the claim requires `false`. -/
theorem record_failure_zero_threshold_counterexample :
    ((HealthState.with_config ⟨0, 2, 30000000000⟩).register_server ⟨1, 9001⟩).servers ⟨1, 9001⟩
        = some ServerHealth.default ∧
    ServerHealth.default.healthy = true ∧
    ServerHealth.default.consecutive_failures = 0 ∧
    (((HealthState.with_config ⟨0, 2, 30000000000⟩).register_server ⟨1, 9001⟩).iterate_record_failure
        ⟨1, 9001⟩ (fun _ => 100)
        ((HealthState.with_config ⟨0, 2, 30000000000⟩).register_server
            ⟨1, 9001⟩).config.unhealthy_threshold).is_healthy ⟨1, 9001⟩ = true :=
  ⟨rfl, rfl, rfl, rfl⟩

end LoadBalancer

namespace LoadBalancer

/-- The `min`-fold never exceeds its initial value. -/
theorem foldr_min_le_init (l : List Nat) (a : Nat) : l.foldr min a ≤ a := by
  induction l with
  | nil => exact le_refl a
  | cons x l ih => exact le_trans (min_le_right x _) ih

/-- The `min`-fold is a lower bound of the list. -/
theorem foldr_min_le_mem (l : List Nat) (a : Nat) :
    ∀ x ∈ l, l.foldr min a ≤ x := by
  induction l with
  | nil => intro x hx; cases hx
  | cons y l ih =>
    intro x hx
    cases hx with
    | head => exact min_le_left _ _
    | tail _ hx => exact le_trans (min_le_right y _) (ih x hx)

/-- The `min`-fold is an element of the list or the initial value. -/
theorem foldr_min_mem_or_init (l : List Nat) (a : Nat) :
    l.foldr min a ∈ l ∨ l.foldr min a = a := by
  induction l with
  | nil => exact Or.inr rfl
  | cons y l ih =>
    rcases le_total y (l.foldr min a) with h | h
    · left
      rw [List.foldr_cons, min_eq_left h]
      exact List.mem_cons_self y l
    · rw [List.foldr_cons, min_eq_right h]
      rcases ih with h' | h'
      · exact Or.inl (List.mem_cons_of_mem y h')
      · exact Or.inr h'

/-- Lowering the initial value of a `min`-fold below `b` commutes with
folding. -/
theorem foldr_min_init_lt (l : List Nat) (a b : Nat) (h : a < b) :
    l.foldr min a = min a (l.foldr min b) := by
  induction l with
  | nil => exact (min_eq_left (le_of_lt h)).symm
  | cons x l ih =>
    rw [List.foldr_cons, List.foldr_cons, ih, min_left_comm]

/-- If no candidate beats the running minimum, the `select` scan keeps
the current selection. -/
theorem selectLoop_no_improve (lc : LeastConnections) :
    ∀ (l : List ServerInfo) (minC : Nat) (sel : Option SocketAddr),
      (∀ s ∈ l, ¬(lc.get_connections s.address < minC)) →
      lc.selectLoop l minC sel = sel := by
  intro l
  induction l with
  | nil => intro _ _ _; rfl
  | cons s rest ih =>
    intro minC sel h
    unfold LeastConnections.selectLoop
    dsimp only
    rw [if_neg (h s (List.mem_cons_self s rest))]
    exact ih minC sel fun x hx => h x (List.mem_cons_of_mem s hx)

/-- If some candidate beats the running minimum, the `select` scan
returns the first candidate attaining the overall minimum. -/
theorem selectLoop_improve (lc : LeastConnections) :
    ∀ (l : List ServerInfo) (minC : Nat) (sel : Option SocketAddr),
      (∃ s ∈ l, lc.get_connections s.address < minC) →
      lc.selectLoop l minC sel =
        (l.find? fun s => lc.get_connections s.address ==
            (l.map fun s => lc.get_connections s.address).foldr min minC).map
          ServerInfo.address := by
  intro l
  induction l with
  | nil => intro _ _ h; obtain ⟨s, hs, _⟩ := h; cases hs
  | cons s rest ih =>
    intro minC sel hex
    unfold LeastConnections.selectLoop
    dsimp only
    rw [List.map_cons, List.foldr_cons]
    by_cases hc : lc.get_connections s.address < minC
    · rw [if_pos hc]
      by_cases hrest : ∃ x ∈ rest, lc.get_connections x.address < lc.get_connections s.address
      · -- a strictly better server exists later: the head is not the minimum
        rw [ih (lc.get_connections s.address) (some s.address) hrest]
        have hmin : (rest.map fun s => lc.get_connections s.address).foldr min
            (lc.get_connections s.address) =
            min (lc.get_connections s.address)
              ((rest.map fun s => lc.get_connections s.address).foldr min minC) :=
          foldr_min_init_lt _ _ _ hc
        rw [hmin]
        obtain ⟨x, hx, hxlt⟩ := hrest
        have hxle := foldr_min_le_mem (rest.map fun s => lc.get_connections s.address) minC
          (lc.get_connections x.address) (List.mem_map.mpr ⟨x, hx, rfl⟩)
        rw [List.find?_cons_of_neg]
        intro hbeq
        have := eq_of_beq hbeq
        omega
      · -- the head is the first minimum
        push_neg at hrest
        rw [selectLoop_no_improve lc rest (lc.get_connections s.address) (some s.address)
          fun x hx => not_lt.mpr (hrest x hx)]
        have hge : ∀ y ∈ rest.map fun s => lc.get_connections s.address,
            lc.get_connections s.address ≤ y := by
          intro y hy
          obtain ⟨x, hx, rfl⟩ := List.mem_map.mp hy
          exact hrest x hx
        have hmin : min (lc.get_connections s.address)
            ((rest.map fun s => lc.get_connections s.address).foldr min minC) =
            lc.get_connections s.address := by
          rcases foldr_min_mem_or_init (rest.map fun s => lc.get_connections s.address) minC
            with h' | h'
          · exact min_eq_left (hge _ h')
          · rw [h']; exact min_eq_left (le_of_lt hc)
        rw [hmin, @List.find?_cons_of_pos _
          (fun x => lc.get_connections x.address == lc.get_connections s.address) s rest
          (beq_self_eq_true _)]
        rfl
    · rw [if_neg hc]
      have hrest : ∃ x ∈ rest, lc.get_connections x.address < minC := by
        obtain ⟨x, hx, hxlt⟩ := hex
        cases hx with
        | head => exact absurd hxlt hc
        | tail _ hx => exact ⟨x, hx, hxlt⟩
      rw [ih minC sel hrest]
      obtain ⟨x, hx, hxlt⟩ := hrest
      have hle := foldr_min_le_mem (rest.map fun s => lc.get_connections s.address) minC
        (lc.get_connections x.address) (List.mem_map.mpr ⟨x, hx, rfl⟩)
      have hmin : min (lc.get_connections s.address)
          ((rest.map fun s => lc.get_connections s.address).foldr min minC) =
          (rest.map fun s => lc.get_connections s.address).foldr min minC :=
        min_eq_right (by omega)
      rw [hmin, List.find?_cons_of_neg]
      intro hbeq
      have := eq_of_beq hbeq
      omega

end LoadBalancer

namespace LoadBalancer

/-- Claim C8 (amended): after any finite sequence of
`on_connect`/`on_disconnect` events, provided some server's tracked
count is below `u32::MAX` (the scan's initial `min_conns`), `select` on
a non-empty list returns the address of the first server in list order
whose tracked count equals the minimum count over the list.  The first
two conjuncts certify that `minCount` is that minimum. -/
theorem least_connections_first_min (es : List ConnEvent) (servers : List ServerInfo)
    (hne : servers ≠ [])
    (hlt : ∃ s ∈ servers,
      (applyEvents es LeastConnections.new).get_connections s.address < U32 - 1) :
    (∀ s ∈ servers,
      (applyEvents es LeastConnections.new).minCount servers ≤
        (applyEvents es LeastConnections.new).get_connections s.address) ∧
    (∃ s ∈ servers, (applyEvents es LeastConnections.new).get_connections s.address
        = (applyEvents es LeastConnections.new).minCount servers) ∧
    (applyEvents es LeastConnections.new).select servers
      = (servers.find? fun s =>
            (applyEvents es LeastConnections.new).get_connections s.address
              == (applyEvents es LeastConnections.new).minCount servers).map
          ServerInfo.address := by
  refine ⟨?_, ?_, ?_⟩
  · intro s hs
    exact foldr_min_le_mem _ _ _ (List.mem_map.mpr ⟨s, hs, rfl⟩)
  · rcases foldr_min_mem_or_init
        (servers.map fun s => (applyEvents es LeastConnections.new).get_connections s.address)
        (U32 - 1) with h | h
    · obtain ⟨x, hx, hfx⟩ := List.mem_map.mp h
      exact ⟨x, hx, hfx⟩
    · obtain ⟨x, hx, hxlt⟩ := hlt
      have hle := foldr_min_le_mem
        (servers.map fun s => (applyEvents es LeastConnections.new).get_connections s.address)
        (U32 - 1) _ (List.mem_map.mpr ⟨x, hx, rfl⟩)
      omega
  · unfold LeastConnections.select
    rw [if_neg (by rw [List.isEmpty_eq_false.mpr hne]; exact Bool.false_ne_true)]
    unfold LeastConnections.minCount
    exact selectLoop_improve _ servers (U32 - 1) none hlt

/-- `n` consecutive `on_connect` events drive a server's tracked count
to `(previous + n) % 2^32`. -/
theorem connect_replicate_count (a : SocketAddr) :
    ∀ (n : Nat) (lc : LeastConnections), lc.get_connections a < U32 →
      (applyEvents (List.replicate n (ConnEvent.connect a)) lc).get_connections a
        = (lc.get_connections a + n) % U32 := by
  intro n
  induction n with
  | zero =>
    intro lc h
    show lc.get_connections a = (lc.get_connections a + 0) % U32
    rw [Nat.add_zero, Nat.mod_eq_of_lt h]
  | succ k ih =>
    intro lc h
    rw [List.replicate_succ]
    show (applyEvents (List.replicate k (ConnEvent.connect a)) (lc.on_connect a)).get_connections a
        = (lc.get_connections a + (k + 1)) % U32
    have hcon : (lc.on_connect a).get_connections a = (lc.get_connections a + 1) % U32 := by
      unfold LeastConnections.on_connect LeastConnections.get_connections
      simp
    rw [ih (lc.on_connect a) (by rw [hcon]; exact Nat.mod_lt _ (by decide))]
    rw [hcon]
    calc ((lc.get_connections a + 1) % U32 + k) % U32
        = (lc.get_connections a + 1 + k) % U32 :=
          Nat.ModEq.add_right k (Nat.mod_modEq (lc.get_connections a + 1) U32)
      _ = (lc.get_connections a + (k + 1)) % U32 := by ring_nf

/-- Claim C8 counterexample: after `u32::MAX` connect events on a
single server, its tracked count is `u32::MAX`, the first (and only)
server attains the minimum count — so the claim requires `select` to
return its address — yet `select` returns `none`, because the scan's
strict `conns < min_conns` comparison starts at `u32::MAX`. -/
theorem least_connections_saturated_counterexample :
    (applyEvents lcOverflowEvents LeastConnections.new).get_connections lcServer.address
        = U32 - 1 ∧
    ([lcServer].find? fun s =>
        (applyEvents lcOverflowEvents LeastConnections.new).get_connections s.address
          == (applyEvents lcOverflowEvents LeastConnections.new).minCount [lcServer])
        = some lcServer ∧
    (applyEvents lcOverflowEvents LeastConnections.new).select [lcServer] = none := by
  have h0 : LeastConnections.new.get_connections lcServer.address = 0 := rfl
  have hcount : (applyEvents lcOverflowEvents LeastConnections.new).get_connections
      lcServer.address = U32 - 1 := by
    unfold lcOverflowEvents
    rw [connect_replicate_count lcServer.address (U32 - 1) LeastConnections.new
      (by rw [h0]; decide)]
    rw [h0, Nat.zero_add]
    exact Nat.mod_eq_of_lt (by decide)
  have hm : (applyEvents lcOverflowEvents LeastConnections.new).minCount [lcServer]
      = U32 - 1 := by
    unfold LeastConnections.minCount
    rw [List.map_cons, List.map_nil, List.foldr_cons, List.foldr_nil, hcount, min_self]
  refine ⟨hcount, ?_, ?_⟩
  · have hp : ((applyEvents lcOverflowEvents LeastConnections.new).get_connections
        lcServer.address
          == (applyEvents lcOverflowEvents LeastConnections.new).minCount [lcServer]) = true := by
      rw [hcount, hm]
      exact beq_self_eq_true _
    exact List.find?_cons_of_pos [] hp
  · unfold LeastConnections.select
    rw [if_neg (by intro hc; exact Bool.false_ne_true hc)]
    unfold LeastConnections.selectLoop
    dsimp only
    rw [hcount]
    rw [if_neg (lt_irrefl _)]
    rfl

end LoadBalancer

namespace LoadBalancer

/-- Witness for `least_connections_first_min`: two connects on one
server and one on another; the untouched third server is selected. -/
theorem least_connections_first_min_witness :
    (∀ s ∈ cservers,
      (applyEvents [ConnEvent.connect ⟨1, 1⟩, ConnEvent.connect ⟨1, 1⟩, ConnEvent.connect ⟨1, 2⟩]
          LeastConnections.new).minCount cservers ≤
        (applyEvents [ConnEvent.connect ⟨1, 1⟩, ConnEvent.connect ⟨1, 1⟩, ConnEvent.connect ⟨1, 2⟩]
          LeastConnections.new).get_connections s.address) ∧
    (∃ s ∈ cservers,
      (applyEvents [ConnEvent.connect ⟨1, 1⟩, ConnEvent.connect ⟨1, 1⟩, ConnEvent.connect ⟨1, 2⟩]
          LeastConnections.new).get_connections s.address
        = (applyEvents [ConnEvent.connect ⟨1, 1⟩, ConnEvent.connect ⟨1, 1⟩, ConnEvent.connect ⟨1, 2⟩]
            LeastConnections.new).minCount cservers) ∧
    (applyEvents [ConnEvent.connect ⟨1, 1⟩, ConnEvent.connect ⟨1, 1⟩, ConnEvent.connect ⟨1, 2⟩]
        LeastConnections.new).select cservers
      = (cservers.find? fun s =>
            (applyEvents [ConnEvent.connect ⟨1, 1⟩, ConnEvent.connect ⟨1, 1⟩,
                ConnEvent.connect ⟨1, 2⟩] LeastConnections.new).get_connections s.address
              == (applyEvents [ConnEvent.connect ⟨1, 1⟩, ConnEvent.connect ⟨1, 1⟩,
                  ConnEvent.connect ⟨1, 2⟩] LeastConnections.new).minCount cservers).map
          ServerInfo.address :=
  least_connections_first_min
    [ConnEvent.connect ⟨1, 1⟩, ConnEvent.connect ⟨1, 1⟩, ConnEvent.connect ⟨1, 2⟩]
    cservers (by decide) (by decide)

end LoadBalancer

namespace LoadBalancer

/-- Unfolding of the total weight over a cons. -/
theorem sumWeights_cons (s : ServerInfo) (rest : List ServerInfo) :
    sumWeights (s :: rest) = s.weight + sumWeights rest := by
  simp [sumWeights]

/-- `Weighted::select` depends on the counter only through its value
modulo `2^32` (the `as u32` truncation). -/
theorem Weighted.select_congr {x y : Nat} (servers : List ServerInfo)
    (h : x % U32 = y % U32) :
    Weighted.select x servers = Weighted.select y servers := by
  unfold Weighted.select
  rw [h]

/-- `2^32` divides `2^64`, so `usize` wraparound is invisible after the
`as u32` truncation. -/
theorem U32_dvd_U64 : U32 ∣ U64 :=
  pow_dvd_pow 2 (by norm_num)

/-- A run of `n` selects is the pointwise selection at counter values
`c, c+1, …, c+n-1` (the `usize` wrap at `2^64` does not matter modulo
`2^32`). -/
theorem Weighted.selectRun_eq_map (servers : List ServerInfo) :
    ∀ (n c : Nat), Weighted.selectRun c servers n
      = (List.range n).map fun i => Weighted.select (c + i) servers := by
  intro n
  induction n with
  | zero => intro c; rfl
  | succ k ih =>
    intro c
    show Weighted.select c servers :: Weighted.selectRun (Weighted.next c) servers k = _
    rw [ih (Weighted.next c), List.range_succ_eq_map, List.map_cons, List.map_map]
    congr 1
    apply List.map_congr_left
    intro i _
    apply Weighted.select_congr
    show (Weighted.next c + i) % U32 = (c + (i + 1)) % U32
    unfold Weighted.next
    have h1 : (c + 1) % U64 % U32 = (c + 1) % U32 := Nat.mod_mod_of_dvd _ U32_dvd_U64
    calc ((c + 1) % U64 + i) % U32
        = (c + 1 + i) % U32 := Nat.ModEq.add_right i h1
      _ = (c + (i + 1)) % U32 := by ring_nf

/-- Adding `i` to a counter does not wrap modulo `2^32` while the
window stays inside one `2^32` block. -/
theorem add_mod_window (c i : Nat) (h : c % U32 + i < U32) :
    (c + i) % U32 = c % U32 + i := by
  conv_lhs => rw [← Nat.mod_add_div c U32]
  rw [Nat.add_right_comm, Nat.add_mul_mod_self_left]
  exact Nat.mod_eq_of_lt h

/-- The cumulative scan only returns addresses of listed servers. -/
theorem findWeighted_mem :
    ∀ (l : List ServerInfo) (acc pos : Nat) (a : SocketAddr),
      findWeighted pos acc l = some a → a ∈ l.map ServerInfo.address := by
  intro l
  induction l with
  | nil => intro acc pos a h; cases h
  | cons s rest ih =>
    intro acc pos a h
    unfold findWeighted at h
    dsimp only at h
    rw [List.map_cons]
    split at h
    · cases h
      exact List.mem_cons_self _ _
    · exact List.mem_cons_of_mem _ (ih _ pos a h)

/-- The cumulative scan succeeds whenever the position lies inside the
total weight range (and no `u32` wrap occurs). -/
theorem findWeighted_isSome :
    ∀ (l : List ServerInfo) (acc pos : Nat),
      acc + sumWeights l < U32 → acc ≤ pos → pos < acc + sumWeights l →
      (findWeighted pos acc l).isSome := by
  intro l
  induction l with
  | nil =>
    intro acc pos _ h1 h2
    unfold sumWeights at h2
    simp at h2
    omega
  | cons s rest ih =>
    intro acc pos hlt hle hpos
    rw [sumWeights_cons] at hlt hpos
    unfold findWeighted
    dsimp only
    rw [Nat.mod_eq_of_lt (by omega : acc + s.weight < U32)]
    by_cases hc : pos < acc + s.weight
    · rw [if_pos hc]; rfl
    · rw [if_neg hc]
      exact ih (acc + s.weight) pos (by omega) (by omega) (by omega)

/-- Characterisation of the cumulative scan: with distinct addresses it
returns `a` exactly when the position falls in `a`'s weight slot
`[acc + cumBefore, acc + cumBefore + weightOf)`. -/
theorem findWeighted_eq_some_iff :
    ∀ (l : List ServerInfo) (acc pos : Nat) (a : SocketAddr),
      (l.map ServerInfo.address).Nodup → a ∈ l.map ServerInfo.address →
      acc + sumWeights l < U32 → acc ≤ pos →
      (findWeighted pos acc l = some a ↔
        acc + cumBefore a l ≤ pos ∧ pos < acc + cumBefore a l + weightOf a l) := by
  intro l
  induction l with
  | nil => intro acc pos a _ ha _ _; cases ha
  | cons s rest ih =>
    intro acc pos a hnd ha hsum hacc
    rw [sumWeights_cons] at hsum
    rw [List.map_cons] at hnd ha
    unfold findWeighted cumBefore weightOf
    dsimp only
    rw [Nat.mod_eq_of_lt (by omega : acc + s.weight < U32)]
    by_cases heq : s.address = a
    · rw [if_pos heq, if_pos heq]
      by_cases hlt : pos < acc + s.weight
      · rw [if_pos hlt]
        constructor
        · intro _
          exact ⟨by omega, by omega⟩
        · intro _
          rw [heq]
      · rw [if_neg hlt]
        constructor
        · intro hfind
          exact absurd (heq ▸ findWeighted_mem rest (acc + s.weight) pos a hfind)
            (List.nodup_cons.mp hnd).1
        · intro h
          omega
    · rw [if_neg heq, if_neg heq]
      have ha' : a ∈ rest.map ServerInfo.address := by
        rcases List.mem_cons.mp ha with h | h
        · exact absurd h.symm heq
        · exact h
      by_cases hlt : pos < acc + s.weight
      · rw [if_pos hlt]
        constructor
        · intro hsome
          cases hsome
          exact absurd rfl heq
        · intro h
          omega
      · rw [if_neg hlt]
        rw [ih (acc + s.weight) pos a (List.nodup_cons.mp hnd).2 ha' (by omega) (by omega)]
        constructor
        · intro h
          exact ⟨by omega, by omega⟩
        · intro h
          exact ⟨by omega, by omega⟩

end LoadBalancer

namespace LoadBalancer

/-- A server's weight slot lies inside the total weight range. -/
theorem cumBefore_add_weightOf_le (a : SocketAddr) :
    ∀ l : List ServerInfo, a ∈ l.map ServerInfo.address →
      cumBefore a l + weightOf a l ≤ sumWeights l := by
  intro l
  induction l with
  | nil => intro h; cases h
  | cons s rest ih =>
    intro ha
    rw [sumWeights_cons]
    unfold cumBefore weightOf
    by_cases heq : s.address = a
    · rw [if_pos heq, if_pos heq]
      omega
    · rw [if_neg heq, if_neg heq]
      have ha' : a ∈ rest.map ServerInfo.address := by
        rw [List.map_cons] at ha
        rcases List.mem_cons.mp ha with h | h
        · exact absurd h.symm heq
        · exact h
      have := ih ha'
      omega

/-- With distinct addresses, `weightOf` of a listed server's address is
that server's weight. -/
theorem weightOf_eq_of_nodup :
    ∀ (l : List ServerInfo) (s : ServerInfo),
      (l.map ServerInfo.address).Nodup → s ∈ l → weightOf s.address l = s.weight := by
  intro l
  induction l with
  | nil => intro s _ hs; cases hs
  | cons t rest ih =>
    intro s hnd hs
    rw [List.map_cons] at hnd
    unfold weightOf
    by_cases heq : t.address = s.address
    · rw [if_pos heq]
      rcases List.mem_cons.mp hs with h | h
      · rw [h]
      · exact absurd (heq ▸ List.mem_map.mpr ⟨s, h, rfl⟩) (List.nodup_cons.mp hnd).1
    · rw [if_neg heq]
      rcases List.mem_cons.mp hs with h | h
      · exact absurd (congrArg ServerInfo.address h).symm heq
      · exact ih s (List.nodup_cons.mp hnd).2 h

/-- Characterisation of `Weighted::select`: it returns address `a`
exactly when the truncated counter position falls in `a`'s weight
slot. -/
theorem select_eq_some_iff (c : Nat) (servers : List ServerInfo) (a : SocketAddr)
    (hne : servers ≠ []) (hnd : (servers.map ServerInfo.address).Nodup)
    (hW1 : 1 ≤ sumWeights servers) (hW32 : sumWeights servers < U32)
    (ha : a ∈ servers.map ServerInfo.address) :
    Weighted.select c servers = some a ↔
      cumBefore a servers ≤ c % U32 % sumWeights servers ∧
      c % U32 % sumWeights servers < cumBefore a servers + weightOf a servers := by
  unfold Weighted.select
  rw [if_neg (by rw [List.isEmpty_eq_false.mpr hne]; exact Bool.false_ne_true)]
  dsimp only
  rw [Nat.mod_eq_of_lt hW32]
  rw [if_neg (by omega)]
  have hpos_lt : c % U32 % sumWeights servers < sumWeights servers :=
    Nat.mod_lt _ (by omega)
  have hiff := findWeighted_eq_some_iff servers 0 (c % U32 % sumWeights servers) a hnd ha
    (by omega) (Nat.zero_le _)
  simp only [Nat.zero_add] at hiff
  have hsome := findWeighted_isSome servers 0 (c % U32 % sumWeights servers)
    (by omega) (Nat.zero_le _) (by omega)
  obtain ⟨b, hb⟩ := Option.isSome_iff_exists.mp hsome
  rw [hb]
  show some b = some a ↔ _
  constructor
  · intro h
    exact hiff.mp ((Option.some.inj h) ▸ hb)
  · intro h
    exact hb.symm.trans (hiff.mpr h)

end LoadBalancer

namespace LoadBalancer

/-- Within one window of `W` consecutive values there is exactly one
solution of `(a + i) % W = r`, namely `i = (r + W - a) % W`. -/
theorem mod_window_iff (W a i r : Nat) (hW : 0 < W) (ha : a < W) (hi : i < W) (hr : r < W) :
    (a + i) % W = r ↔ i = (r + W - a) % W := by
  have hx : (r + W - a) % W = if a ≤ r then r - a else r + W - a := by
    by_cases har : a ≤ r
    · rw [if_pos har, show r + W - a = (r - a) + W by omega, Nat.add_mod_right]
      exact Nat.mod_eq_of_lt (by omega)
    · rw [if_neg har]
      exact Nat.mod_eq_of_lt (by omega)
  rw [hx]
  by_cases hlt : a + i < W
  · rw [Nat.mod_eq_of_lt hlt]
    by_cases har : a ≤ r
    · rw [if_pos har]; omega
    · rw [if_neg har]; omega
  · rw [Nat.mod_eq_sub_mod (by omega : a + i ≥ W),
      Nat.mod_eq_of_lt (by omega : a + i - W < W)]
    by_cases har : a ≤ r
    · rw [if_pos har]; omega
    · rw [if_neg har]; omega

/-- Over one window of `W` consecutive counter values, each residue is
hit exactly once. -/
theorem countP_one_cycle (W : Nat) (hW : 0 < W) (c r : Nat) (hr : r < W) :
    (List.range W).countP (fun i => decide ((c + i) % W = r)) = 1 := by
  have hx0 : (r + W - c % W) % W < W := Nat.mod_lt _ hW
  rw [@List.countP_congr _ (fun i => decide ((c + i) % W = r))
    (fun i => i == (r + W - c % W) % W) (List.range W) ?_]
  · rw [← List.count_eq_countP]
    exact List.count_eq_one_of_mem (List.nodup_range W) (List.mem_range.mpr hx0)
  · intro i hi
    rw [List.mem_range] at hi
    simp only [decide_eq_true_eq, beq_iff_eq]
    have hmod : (c + i) % W = (c % W + i) % W := by
      conv_lhs => rw [← Nat.mod_add_div c W]
      rw [Nat.add_right_comm, Nat.add_mul_mod_self_left]
    rw [hmod]
    exact mod_window_iff W (c % W) i r hW (Nat.mod_lt _ hW) hi hr

/-- Over `k` windows of `W` consecutive counter values, each residue is
hit exactly `k` times. -/
theorem countP_mod_cycles (W : Nat) (hW : 0 < W) (r : Nat) (hr : r < W) (c : Nat) :
    ∀ k, (List.range (k * W)).countP (fun i => decide ((c + i) % W = r)) = k := by
  intro k
  induction k with
  | zero => rw [Nat.zero_mul]; rfl
  | succ k ih =>
    rw [show (k + 1) * W = k * W + W by ring, List.range_add, List.countP_append, ih,
      List.countP_map]
    have : ((fun i => decide ((c + i) % W = r)) ∘ fun x => k * W + x)
        = fun i => decide ((c + k * W + i) % W = r) := by
      funext i
      show decide ((c + (k * W + i)) % W = r) = decide ((c + k * W + i) % W = r)
      rw [← Nat.add_assoc]
    rw [this, countP_one_cycle W hW (c + k * W) r hr]

/-- Counting a disjunction of disjoint predicates adds the counts. -/
theorem countP_or_disjoint :
    ∀ (l : List Nat) (p q : Nat → Bool), (∀ x ∈ l, ¬(p x = true ∧ q x = true)) →
      l.countP (fun x => p x || q x) = l.countP p + l.countP q := by
  intro l
  induction l with
  | nil => intro _ _ _; rfl
  | cons x l ih =>
    intro p q hdis
    rw [List.countP_cons, List.countP_cons, List.countP_cons,
      ih p q fun y hy => hdis y (List.mem_cons_of_mem x hy)]
    have := hdis x (List.mem_cons_self x l)
    cases hp : p x <;> cases hq : q x <;> simp [hp, hq] at this ⊢ <;> omega

/-- Over `k` windows of `W` consecutive counter values, residues in an
interval of length `len` are hit exactly `k·len` times. -/
theorem countP_mod_interval (W : Nat) (hW : 0 < W) (c lo : Nat) :
    ∀ len, lo + len ≤ W → ∀ k,
      (List.range (k * W)).countP
        (fun i => decide (lo ≤ (c + i) % W ∧ (c + i) % W < lo + len)) = k * len := by
  intro len
  induction len with
  | zero =>
    intro _ k
    rw [List.countP_eq_zero.mpr ?_, Nat.mul_zero]
    intro i _
    simp only [decide_eq_true_eq]
    omega
  | succ m ih =>
    intro hle k
    have hsplit : ∀ i ∈ List.range (k * W),
        (decide (lo ≤ (c + i) % W ∧ (c + i) % W < lo + (m + 1)) = true) ↔
        ((decide (lo ≤ (c + i) % W ∧ (c + i) % W < lo + m)
          || decide ((c + i) % W = lo + m)) = true) := by
      intro i _
      simp only [Bool.or_eq_true, decide_eq_true_eq]
      omega
    rw [List.countP_congr hsplit]
    rw [countP_or_disjoint (List.range (k * W)) _ _ ?_]
    · rw [ih (by omega) k, countP_mod_cycles W hW (lo + m) (by omega) c k]
      ring
    · intro i _
      simp only [decide_eq_true_eq, not_and]
      intro h1 h2
      omega

end LoadBalancer

namespace LoadBalancer

/-- Claim C1 (amended): on a non-empty list with pairwise-distinct
addresses, total weight `W` with `1 ≤ W < 2^32`, and a counter window
that does not cross a multiple of `2^32`
(`counter % 2^32 + k·W ≤ 2^32`), any `k·W` consecutive `select` calls
return each server `s` exactly `k·s.weight` times. -/
theorem weighted_exact_distribution (servers : List ServerInfo) (c k : Nat)
    (hne : servers ≠ [])
    (hnd : (servers.map ServerInfo.address).Nodup)
    (hW1 : 1 ≤ sumWeights servers) (hW32 : sumWeights servers < U32)
    (hwin : c % U32 + k * sumWeights servers ≤ U32) :
    ∀ s ∈ servers,
      (Weighted.selectRun c servers (k * sumWeights servers)).count (some s.address)
        = k * s.weight := by
  intro s hs
  have hmem : s.address ∈ servers.map ServerInfo.address := List.mem_map.mpr ⟨s, hs, rfl⟩
  have hwo : weightOf s.address servers = s.weight := weightOf_eq_of_nodup servers s hnd hs
  have hcw : cumBefore s.address servers + weightOf s.address servers ≤ sumWeights servers :=
    cumBefore_add_weightOf_le s.address servers hmem
  rw [Weighted.selectRun_eq_map, List.count_eq_countP, List.countP_map]
  have hcongr : ∀ i ∈ List.range (k * sumWeights servers),
      (((fun x => x == some s.address) ∘ fun i => Weighted.select (c + i) servers) i = true) ↔
      ((fun i => decide (cumBefore s.address servers ≤ (c % U32 + i) % sumWeights servers ∧
          (c % U32 + i) % sumWeights servers
            < cumBefore s.address servers + s.weight)) i = true) := by
    intro i hi
    rw [List.mem_range] at hi
    simp only [Function.comp, beq_iff_eq, decide_eq_true_eq]
    have hmodw : (c + i) % U32 = c % U32 + i := add_mod_window c i (by omega)
    have hiff := select_eq_some_iff (c + i) servers s.address hne hnd hW1 hW32 hmem
    rw [hmodw, hwo] at hiff
    exact hiff
  rw [List.countP_congr hcongr]
  exact countP_mod_interval (sumWeights servers) (by omega) (c % U32)
    (cumBefore s.address servers) s.weight (by omega) k

/-- Witness for `weighted_exact_distribution`: the spec's E2 pool
`[(:9001, w=3), (:9002, w=1)]` from counter 0 with `k = 1`: in `W = 4`
calls, server `:9001` is selected 3 times and `:9002` once. -/
theorem weighted_exact_distribution_witness :
    (Weighted.selectRun 0 wservers (1 * sumWeights wservers)).count
        (some (⟨1, 9001⟩ : SocketAddr)) = 1 * 3 ∧
    (Weighted.selectRun 0 wservers (1 * sumWeights wservers)).count
        (some (⟨1, 9002⟩ : SocketAddr)) = 1 * 1 :=
  ⟨weighted_exact_distribution wservers 0 1 (by decide) (by decide) (by decide) (by decide)
      (by decide) ⟨⟨1, 9001⟩, 3⟩ (by decide),
    weighted_exact_distribution wservers 0 1 (by decide) (by decide) (by decide) (by decide)
      (by decide) ⟨⟨1, 9002⟩, 1⟩ (by decide)⟩

/-- Claim C1 counterexample: on three unit-weight servers (`W = 3`)
starting from counter `2^32 - 1`, one window of `W` consecutive calls
does **not** select each server once: the `as u32` truncation makes the
positions jump `0, 0, 1` (because `2^32 ≡ 1 [MOD 3]`), so the third
server is never selected. -/
theorem weighted_counter_truncation_counterexample :
    ¬ (∀ s ∈ cservers,
        (Weighted.selectRun (U32 - 1) cservers (1 * sumWeights cservers)).count
          (some s.address) = 1 * s.weight) := by decide

end LoadBalancer
